import Mathlib

/-!
Verification of the session-orchestration core of `load-originate.py`, a
FreeSWITCH call-load generator.  The definitions below are a shallow
embedding of the Python source: `FastScheduler` (a `sched.scheduler`
subclass, lines 20-63), the `Session` object (lines 65-68) and
`SessionManager` (lines 70-193).  Times are modelled as `Int` seconds
(the source uses `time.time()` floats; every comparison the claims need
is order-only), machine state is passed explicitly, and commands sent to
the external transport (`self.con.api(...)`) are collected into an
output list instead of being performed.
-/

set_option autoImplicit false

namespace LoadOriginate

/-! ## Timer queue (`FastScheduler`, lines 20-63) -/

/-- The only callback the program ever schedules is the bound method
`self.originate_sessions` with empty argument list (line 124), so the
`action` field of a queue entry ranges over this one-element type at the
`SessionManager` level.  The `FastScheduler` definitions stay generic in
the action type `α`. -/
inductive ActionTag : Type where
  | originateSessions
  deriving DecidableEq, Repr

/-- One entry of the scheduler queue: the `(time, priority, action, argument)`
tuple of `sched.scheduler` (the argument list is always empty here and is
dropped). -/
structure TEntry (α : Type) where
  time : Int
  priority : Nat
  action : α
  deriving DecidableEq, Repr

/-- Ordered insertion keyed lexicographically on `(time, priority)`.
`sched.scheduler.enter` keeps the queue a priority structure whose
front `q[0]` is the minimal `(time, priority, ...)` tuple (a bisect-sorted
list on Python 2.6, a heap on 2.7); a sorted list with the same minimum at
the head is an observationally equivalent model.  An entry with an equal
key goes after the existing ones. -/
def insortEntry {α : Type} (e : TEntry α) : List (TEntry α) → List (TEntry α)
  | [] => [e]
  | b :: l =>
      if e.time < b.time ∨ (e.time = b.time ∧ e.priority < b.priority) then
        e :: b :: l
      else
        b :: insortEntry e l

/-- The queue is sorted by due time (the component `fast_run` and
`next_event_time_delta` compare on). -/
def timeSorted {α : Type} (q : List (TEntry α)) : Prop :=
  List.Pairwise (fun a b : TEntry α => a.time ≤ b.time) q

/-- `FastScheduler.next_event_time_delta` (lines 33-45): `-1` when the
queue is empty (the "no pending entries" sentinel), otherwise the
non-negative number of whole seconds until the front entry is due. -/
def next_event_time_delta {α : Type} (now : Int) (q : List (TEntry α)) : Int :=
  match q with
  | [] => -1
  | e :: _ => if now < e.time then e.time - now else 0

/-- The wait computation of `SessionManager.run` (lines 185-188):
`sched_sleep = self.sched.next_event_time_delta()`, a computed `0` is
replaced by `1`, and the result is converted to milliseconds and handed
to `self.con.recvEventTimed(sched_sleep * 1000)`. -/
def run_recv_timeout_ms {α : Type} (now : Int) (q : List (TEntry α)) : Int :=
  let d := next_event_time_delta now q
  let d2 := if d = 0 then 1 else d
  d2 * 1000

/-- `FastScheduler.fast_run` (lines 47-63), with explicit fuel standing in
for the unbounded `while q:` loop (each recursive call is one loop
iteration).  `now` is sampled once before the loop (line 56).  Each
iteration inspects the front entry `q[0]`; if it is not yet due the loop
breaks, otherwise `self.cancel(q[0])` removes it and `action(*argument)`
runs.  An action is modelled by `exec`, which returns the updated
callback state together with the entries it scheduled (its calls to
`self.sched.enter`), which are inserted into the live queue before the
next iteration.  Returns the final queue, the final callback state and
the list of executed entries in execution order. -/
def fast_run_aux {α σ : Type} (exec : α → σ → σ × List (TEntry α)) (now : Int) :
    Nat → List (TEntry α) → σ → List (TEntry α) × σ × List (TEntry α)
  | _, [], s => ([], s, [])
  | 0, q, s => (q, s, [])
  | fuel + 1, e :: q, s =>
      if now < e.time then
        (e :: q, s, [])
      else
        let r := exec e.action s
        let q2 := r.2.foldl (fun acc n => insortEntry n acc) q
        let out := fast_run_aux exec now fuel q2 r.1
        (out.1, out.2.1, e :: out.2.2)

/-! ## Events, commands, sessions -/

/-- An ESL event as consumed by the orchestrator: the four headers the
program reads.  `getHeader` returns `None` for a missing header, hence
the `Option String` fields. -/
structure Event where
  eventName : Option String
  uuid : Option String
  direction : Option String
  cause : Option String
  deriving DecidableEq, Repr

/-- `e.getHeader(key)` for the four keys the source reads (lines 127,
139, 140, 153, 161, 164); any other key is absent. -/
def Event.getHeader (e : Event) (h : String) : Option String :=
  if h = "Event-Name" then e.eventName
  else if h = "Channel-Call-UUID" then e.uuid
  else if h = "Call-Direction" then e.direction
  else if h = "Hangup-Cause" then e.cause
  else none

/-- A command sent to the transport from inside the orchestration loop:
`bgapi originate <originate_string>` (line 122) or
`sched_hangup +<duration> <uuid> NORMAL_CLEARING` (line 150).  The
startup-time `fsctl` / event-subscription commands (lines 104-111) are
outside the loop and not modelled. -/
inductive Cmd : Type where
  | bgapiOriginate (originate_string : String)
  | schedHangup (delay : Nat) (uuid : Option String)
  deriving DecidableEq, Repr

/-- `Session` (lines 65-68). -/
structure Session where
  uuid : Option String
  answered : Bool
  deriving DecidableEq, Repr

/-! ## Dictionary helpers

`self.sessions` and `self.hangup_causes` are Python dicts; they are
modelled as association lists whose keys are unique (a dict cannot hold
a key twice; insertions below only ever append an absent key). -/

/-- `k in d` / `d[k]` lookup. -/
def lookupA {β : Type} (k : Option String) : List (Option String × β) → Option β
  | [] => none
  | p :: l => if p.1 = k then some p.2 else lookupA k l

/-- `del d[k]`: removes the (unique) entry with key `k`. -/
def eraseKey {β : Type} (k : Option String) (l : List (Option String × β)) :
    List (Option String × β) :=
  l.filter (fun p => decide (p.1 ≠ k))

/-- Keys of an association list. -/
def keysOf {β : Type} (l : List (Option String × β)) : List (Option String) :=
  l.map Prod.fst

/-- `self.sessions[uuid].answered = True` (line 158): in-place mutation of
the stored object. -/
def setAnswered (k : Option String) (l : List (Option String × Session)) :
    List (Option String × Session) :=
  l.map (fun p => if p.1 = k then (p.1, { p.2 with answered := true }) else p)

/-- Lines 165-168: `hangup_causes[cause] = 1` when the cause is new,
otherwise `hangup_causes[cause] += 1`. -/
def bumpCause (c : Option String) (m : List (Option String × Nat)) :
    List (Option String × Nat) :=
  match lookupA c m with
  | none => m ++ [(c, 1)]
  | some _ => m.map (fun p => if p.1 = c then (p.1, p.2 + 1) else p)

/-! ## SessionManager state -/

/-- The mutable fields of a `SessionManager` (lines 70-96) that the
orchestration loop reads or writes, plus the immutable run
configuration.  The ESL connection itself is replaced by the `List Cmd`
outputs of the operations below. -/
structure SMState where
  rate : Nat
  limit : Nat
  max_sessions : Nat
  duration : Nat
  originate_string : String
  sessions : List (Option String × Session)
  hangup_causes : List (Option String × Nat)
  total_originated_sessions : Nat
  total_answered_sessions : Nat
  total_failed_sessions : Nat
  terminate : Bool
  sched : List (TEntry ActionTag)
  deriving DecidableEq, Repr

/-- The state right after `__init__` (lines 70-111): empty tables, zero
counters, `terminate = False`, empty scheduler queue.  The connection
setup commands issued there touch only the external switch. -/
def initState (rate limit max_sessions duration : Nat) (originate_string : String) :
    SMState :=
  { rate := rate
    limit := limit
    max_sessions := max_sessions
    duration := duration
    originate_string := originate_string
    sessions := []
    hangup_causes := []
    total_originated_sessions := 0
    total_answered_sessions := 0
    total_failed_sessions := 0
    terminate := false
    sched := [] }

/-! ## The rate-control tick and the event handlers -/

/-- The `for i in range(0, self.rate)` loop of `originate_sessions`
(lines 119-123): first argument is the remaining iterations, second the
running `sesscnt`; returns how many `bgapi originate` commands the loop
issues. -/
def issueLoop (limit : Nat) : Nat → Nat → Nat
  | 0, _ => 0
  | i + 1, sesscnt => if limit ≤ sesscnt then 0 else issueLoop limit i (sesscnt + 1) + 1

/-- `SessionManager.originate_sessions` (lines 113-124).  When
`total_originated_sessions >= max_sessions` it returns at line 117
before issuing anything and before the re-arm, so the tick stops
recurring.  Otherwise it issues one `bgapi originate` per loop iteration
until `sesscnt` (seeded with `len(self.sessions)`, line 118) reaches
`limit` or `rate` iterations are done, then re-arms itself one second
out via `self.sched.enter(1, 1, self.originate_sessions, [])`.  `now` is
the value `time.time()` returns inside that `enter` call. -/
def originate_sessions (now : Int) (s : SMState) : SMState × List Cmd :=
  if s.max_sessions ≤ s.total_originated_sessions then
    (s, [])
  else
    let n := issueLoop s.limit s.rate s.sessions.length
    ({ s with sched := insortEntry ⟨now + 1, 1, ActionTag.originateSessions⟩ s.sched },
      List.replicate n (Cmd.bgapiOriginate s.originate_string))

/-- `SessionManager.handle_originate` (lines 138-150): ignore
non-outbound legs; ignore (log only) a duplicate uuid; otherwise create
the `Session`, bump `total_originated_sessions` and ask the switch to
schedule the forced hangup `duration` seconds out.  Note the forced
hangup is a `sched_hangup` API command to the switch, not an entry in
the local `FastScheduler` queue. -/
def handle_originate (s : SMState) (e : Event) : SMState × List Cmd :=
  let uuid := e.getHeader "Channel-Call-UUID"
  if e.getHeader "Call-Direction" ≠ some "outbound" then
    (s, [])
  else if (lookupA uuid s.sessions).isSome then
    (s, [])
  else
    ({ s with
        sessions := s.sessions ++ [(uuid, { uuid := uuid, answered := false })]
        total_originated_sessions := s.total_originated_sessions + 1 },
      [Cmd.schedHangup s.duration uuid])

/-- `SessionManager.handle_answer` (lines 152-158): unknown uuid is a
no-op; otherwise bump `total_answered_sessions` (unconditionally, even
if already answered) and set the answered flag of the session. -/
def handle_answer (s : SMState) (e : Event) : SMState × List Cmd :=
  let uuid := e.getHeader "Channel-Call-UUID"
  match lookupA uuid s.sessions with
  | none => (s, [])
  | some _ =>
      ({ s with
          total_answered_sessions := s.total_answered_sessions + 1
          sessions := setAnswered uuid s.sessions },
        [])

/-- `SessionManager.handle_hangup` (lines 160-175): unknown uuid is a
no-op; otherwise record the hangup cause, count a failure when the
session never answered, delete the session, and set `terminate` when
`total_originated_sessions >= max_sessions` and the table became
empty. -/
def handle_hangup (s : SMState) (e : Event) : SMState × List Cmd :=
  let uuid := e.getHeader "Channel-Call-UUID"
  match lookupA uuid s.sessions with
  | none => (s, [])
  | some sess =>
      let causes := bumpCause (e.getHeader "Hangup-Cause") s.hangup_causes
      let failed :=
        if sess.answered then s.total_failed_sessions else s.total_failed_sessions + 1
      let sessions2 := eraseKey uuid s.sessions
      let term :=
        if s.max_sessions ≤ s.total_originated_sessions ∧ sessions2.length = 0 then
          true
        else s.terminate
      ({ s with
          hangup_causes := causes
          total_failed_sessions := failed
          sessions := sessions2
          terminate := term },
        [])

/-- The outcome of the raw Python call `self.ev_handlers[evname](e)`:
either the return value of the handler or a raised exception. -/
inductive PyResult (α : Type) : Type where
  | ok (a : α)
  | exn (msg : String)
  deriving DecidableEq, Repr

/-- The dispatch `self.ev_handlers[evname](e)` of `process_event`
(lines 126-130): `none` when `evname` is not a key of `ev_handlers`
(line 89-94).  The three channel handlers accept the event and run
their bodies.  `handle_disconnect` is declared `def
handle_disconnect(self)` (line 177) — no event parameter — yet dispatch
passes the event, so that call raises
`TypeError: handle_disconnect() takes exactly 1 argument (2 given)`
before the handler body (which would set `terminate`, line 179) can
run. -/
def dispatchCall (s : SMState) (e : Event) : Option (PyResult (SMState × List Cmd)) :=
  let evname := e.getHeader "Event-Name"
  if evname = some "CHANNEL_ORIGINATE" then some (PyResult.ok (handle_originate s e))
  else if evname = some "CHANNEL_ANSWER" then some (PyResult.ok (handle_answer s e))
  else if evname = some "CHANNEL_HANGUP" then some (PyResult.ok (handle_hangup s e))
  else if evname = some "SERVER_DISCONNECTED" then
    some (PyResult.exn "TypeError: handle_disconnect() takes exactly 1 argument (2 given)")
  else none

/-- `SessionManager.process_event` (lines 126-136): an unknown event
name is logged and skipped (line 136); an exception raised by the
handler call is caught and logged (lines 133-134), leaving the state as
it was. -/
def process_event (s : SMState) (e : Event) : SMState × List Cmd :=
  match dispatchCall s e with
  | some (PyResult.ok r) => r
  | some (PyResult.exn _) => (s, [])
  | none => (s, [])

/-! ## Traces -/

/-- Running the event-dispatch path over a sequence of received events
(the `self.process_event(e)` line of the run loop, line 191). -/
def runEvents (s : SMState) : List Event → SMState
  | [] => s
  | e :: tr => runEvents (process_event s e).1 tr

/-- One observable step of the orchestrator: either a rate-control tick
(`originate_sessions` fired by the timer drain, with `now` the clock
value at its re-arm) or the dispatch of a received event. -/
inductive RStep : Type where
  | tick (now : Int)
  | ev (e : Event)
  deriving DecidableEq, Repr

/-- Effect of one `RStep`. -/
def rstep (s : SMState) : RStep → SMState × List Cmd
  | RStep.tick now => originate_sessions now s
  | RStep.ev e => process_event s e

/-- Run a sequence of steps, collecting every command sent to the
transport. -/
def runSteps (s : SMState) : List RStep → SMState × List Cmd
  | [] => (s, [])
  | st :: tr =>
      let r := rstep s st
      let rest := runSteps r.1 tr
      (rest.1, r.2 ++ rest.2)

/-- A `CHANNEL_ORIGINATE` event that `handle_originate` accepts against
state `s`: outbound direction with a uuid not yet in the table (the
branch at lines 141-150 that creates the session). -/
def isFreshOutboundOriginate (s : SMState) (e : Event) : Bool :=
  e.getHeader "Event-Name" == some "CHANNEL_ORIGINATE" &&
    e.getHeader "Call-Direction" == some "outbound" &&
    (lookupA (e.getHeader "Channel-Call-UUID") s.sessions).isNone

/-- A `CHANNEL_HANGUP` event whose uuid is live in the table, i.e. one
that `handle_hangup` will actually remove (lines 160-171). -/
def isLiveHangup (s : SMState) (e : Event) : Bool :=
  e.getHeader "Event-Name" == some "CHANNEL_HANGUP" &&
    (lookupA (e.getHeader "Channel-Call-UUID") s.sessions).isSome

/-- Number of events in a trace that remove a session from the table
(live hangups), evaluated along the run. -/
def hangupRemovals (s : SMState) : List Event → Nat
  | [] => 0
  | e :: tr =>
      (if isLiveHangup s e then 1 else 0) + hangupRemovals (process_event s e).1 tr

/-- A hangup event addressed to session id `k`. -/
def hangupFor (e : Event) (k : Option String) : Prop :=
  e.getHeader "Event-Name" = some "CHANNEL_HANGUP" ∧
    e.getHeader "Channel-Call-UUID" = k

/-- An outbound CHANNEL_ORIGINATE confirmation event for session `u`, used by
the concrete scenario theorems below. -/
def evOriginate (u : String) : Event :=
  ⟨some "CHANNEL_ORIGINATE", some u, some "outbound", none⟩

/-- A CHANNEL_ANSWER event for session `u`. -/
def evAnswer (u : String) : Event :=
  ⟨some "CHANNEL_ANSWER", some u, some "outbound", none⟩

/-- A CHANNEL_HANGUP event for session `u` with a normal clearing cause. -/
def evHangup (u : String) : Event :=
  ⟨some "CHANNEL_HANGUP", some u, some "outbound", some "NORMAL_CLEARING"⟩

/-! ## Basic lemmas -/

@[simp] lemma getHeader_eventName (e : Event) : e.getHeader "Event-Name" = e.eventName := rfl
@[simp] lemma getHeader_uuid (e : Event) : e.getHeader "Channel-Call-UUID" = e.uuid := rfl
@[simp] lemma getHeader_direction (e : Event) : e.getHeader "Call-Direction" = e.direction := rfl
@[simp] lemma getHeader_cause (e : Event) : e.getHeader "Hangup-Cause" = e.cause := rfl

lemma process_event_originate (s : SMState) (e : Event)
    (h : e.eventName = some "CHANNEL_ORIGINATE") :
    process_event s e = handle_originate s e := by
  simp [process_event, dispatchCall, h]

lemma process_event_answer (s : SMState) (e : Event)
    (h : e.eventName = some "CHANNEL_ANSWER") :
    process_event s e = handle_answer s e := by
  simp [process_event, dispatchCall, h]

lemma process_event_hangup (s : SMState) (e : Event)
    (h : e.eventName = some "CHANNEL_HANGUP") :
    process_event s e = handle_hangup s e := by
  simp [process_event, dispatchCall, h]

lemma process_event_disconnect (s : SMState) (e : Event)
    (h : e.eventName = some "SERVER_DISCONNECTED") :
    process_event s e = (s, []) := by
  simp [process_event, dispatchCall, h]

lemma process_event_unknown (s : SMState) (e : Event)
    (h1 : e.eventName ≠ some "CHANNEL_ORIGINATE")
    (h2 : e.eventName ≠ some "CHANNEL_ANSWER")
    (h3 : e.eventName ≠ some "CHANNEL_HANGUP")
    (h4 : e.eventName ≠ some "SERVER_DISCONNECTED") :
    process_event s e = (s, []) := by
  simp [process_event, dispatchCall, h1, h2, h3, h4]

lemma keysOf_setAnswered (k : Option String) (l : List (Option String × Session)) :
    keysOf (setAnswered k l) = keysOf l := by
  induction l with
  | nil => rfl
  | cons p l ih =>
      simp only [setAnswered, keysOf, List.map_cons] at *
      by_cases h : p.1 = k <;> simp [h, ih]

lemma length_setAnswered (k : Option String) (l : List (Option String × Session)) :
    (setAnswered k l).length = l.length := by
  simp [setAnswered]

lemma lookupA_isSome_iff {β : Type} (k : Option String) (l : List (Option String × β)) :
    (lookupA k l).isSome = true ↔ k ∈ keysOf l := by
  induction l with
  | nil => simp [lookupA, keysOf]
  | cons p l ih =>
      by_cases h : p.1 = k
      · simp [lookupA, keysOf, h]
      · have h2 : ¬(k = p.1) := fun hh => h hh.symm
        simp [lookupA, keysOf, h, ih, h2]

lemma lookupA_eq_none_iff {β : Type} (k : Option String) (l : List (Option String × β)) :
    lookupA k l = none ↔ k ∉ keysOf l := by
  rw [← lookupA_isSome_iff]
  cases lookupA k l <;> simp

lemma mem_keysOf_eraseKey {β : Type} {k u : Option String} {l : List (Option String × β)}
    (h : k ∈ keysOf (eraseKey u l)) : k ∈ keysOf l ∧ k ≠ u := by
  simp only [keysOf, eraseKey, List.mem_map] at h
  rcases h with ⟨p, hp, hk⟩
  rw [List.mem_filter] at hp
  refine ⟨List.mem_map.2 ⟨p, hp.1, hk⟩, ?_⟩
  rcases hp with ⟨hmem, hdec⟩
  rw [decide_eq_true_eq] at hdec
  rw [← hk]; exact hdec

lemma eraseKey_of_not_mem {β : Type} {u : Option String} {l : List (Option String × β)}
    (h : u ∉ keysOf l) : eraseKey u l = l := by
  apply List.filter_eq_self.2
  intro p hp
  rw [decide_eq_true_eq]
  intro hpu
  exact h (List.mem_map.2 ⟨p, hp, hpu⟩)

lemma length_eraseKey {β : Type} {u : Option String} {l : List (Option String × β)}
    (hnd : (keysOf l).Nodup) (hmem : u ∈ keysOf l) :
    (eraseKey u l).length + 1 = l.length := by
  induction l with
  | nil => simp [keysOf] at hmem
  | cons p l ih =>
      rw [keysOf, List.map_cons, List.nodup_cons] at hnd
      simp only [eraseKey, List.filter_cons]
      by_cases h : p.1 = u
      · have hnot : u ∉ keysOf l := by rw [← h]; exact hnd.1
        have he : eraseKey u l = l := eraseKey_of_not_mem hnot
        have hd : decide (p.1 ≠ u) = false := by simp [h]
        rw [hd, if_neg (by simp)]
        simp only [eraseKey] at he
        rw [he, List.length_cons]
      · rcases List.mem_cons.1 hmem with hm | hm
        · exact absurd hm.symm h
        · have ih2 := ih hnd.2 hm
          have hd : decide (p.1 ≠ u) = true := by simp [h]
          rw [hd, if_pos rfl]
          simp only [eraseKey] at ih2
          simp only [List.length_cons]
          omega

lemma lookupA_setAnswered (k : Option String) (l : List (Option String × Session)) :
    lookupA k (setAnswered k l)
      = (lookupA k l).map (fun sess => { sess with answered := true }) := by
  induction l with
  | nil => rfl
  | cons p l ih =>
      simp only [setAnswered] at ih ⊢
      by_cases h : p.1 = k <;> simp [lookupA, h, ih]

lemma step_fresh {s : SMState} {e : Event} (hf : isFreshOutboundOriginate s e = true) :
    process_event s e =
      ({ s with
          sessions := s.sessions ++ [(e.uuid, { uuid := e.uuid, answered := false })]
          total_originated_sessions := s.total_originated_sessions + 1 },
        [Cmd.schedHangup s.duration e.uuid]) := by
  simp only [isFreshOutboundOriginate, Bool.and_eq_true, beq_iff_eq, getHeader_eventName,
    getHeader_direction, getHeader_uuid, Option.isNone_iff_eq_none] at hf
  obtain ⟨⟨hn, hd⟩, hu⟩ := hf
  rw [process_event_originate s e hn]
  simp [handle_originate, hd, hu]

lemma step_live_hangup {s : SMState} {e : Event} (hh : isLiveHangup s e = true) :
    (process_event s e).1.sessions = eraseKey e.uuid s.sessions ∧
    (process_event s e).1.total_originated_sessions = s.total_originated_sessions ∧
    (process_event s e).1.max_sessions = s.max_sessions ∧
    (process_event s e).1.sched = s.sched ∧
    (process_event s e).2 = [] := by
  simp only [isLiveHangup, Bool.and_eq_true, beq_iff_eq, getHeader_eventName,
    getHeader_uuid] at hh
  obtain ⟨hn, hs⟩ := hh
  rw [process_event_hangup s e hn]
  rw [Option.isSome_iff_exists] at hs
  obtain ⟨sess, hsess⟩ := hs
  simp [handle_hangup, hsess]

lemma step_neutral {s : SMState} {e : Event}
    (h1 : isFreshOutboundOriginate s e = false) (h2 : isLiveHangup s e = false) :
    keysOf (process_event s e).1.sessions = keysOf s.sessions ∧
    (process_event s e).1.sessions.length = s.sessions.length ∧
    (process_event s e).1.total_originated_sessions = s.total_originated_sessions ∧
    (process_event s e).1.max_sessions = s.max_sessions ∧
    (process_event s e).1.sched = s.sched ∧
    (process_event s e).2 = [] := by
  have h1' : ¬ (isFreshOutboundOriginate s e = true) := by simp [h1]
  have h2' : ¬ (isLiveHangup s e = true) := by simp [h2]
  simp only [isFreshOutboundOriginate, Bool.and_eq_true, beq_iff_eq, getHeader_eventName,
    getHeader_direction, getHeader_uuid, Option.isNone_iff_eq_none] at h1'
  simp only [isLiveHangup, Bool.and_eq_true, beq_iff_eq, getHeader_eventName,
    getHeader_uuid, Option.isSome_iff_exists] at h2'
  by_cases hn1 : e.eventName = some "CHANNEL_ORIGINATE"
  · rw [process_event_originate s e hn1]
    simp only [handle_originate, getHeader_direction, getHeader_uuid]
    by_cases hd : e.direction = some "outbound"
    · cases hlu : lookupA e.uuid s.sessions with
      | none => exact absurd ⟨⟨hn1, hd⟩, hlu⟩ h1'
      | some v =>
          rw [if_neg (by simp [hd])]
          simp
    · rw [if_pos (by simp [hd])]
      simp
  · by_cases hn2 : e.eventName = some "CHANNEL_ANSWER"
    · rw [process_event_answer s e hn2]
      simp only [handle_answer, getHeader_uuid]
      cases hlu : lookupA e.uuid s.sessions with
      | none => simp
      | some sess => simp [keysOf_setAnswered, length_setAnswered]
    · by_cases hn3 : e.eventName = some "CHANNEL_HANGUP"
      · cases hlu : lookupA e.uuid s.sessions with
        | some v => exact absurd ⟨hn3, v, hlu⟩ h2'
        | none =>
            rw [process_event_hangup s e hn3]
            simp [handle_hangup, hlu]
      · by_cases hn4 : e.eventName = some "SERVER_DISCONNECTED"
        · rw [process_event_disconnect s e hn4]; simp
        · rw [process_event_unknown s e hn1 hn2 hn3 hn4]; simp

lemma nodup_keys_step {s : SMState} (e : Event) (hnd : (keysOf s.sessions).Nodup) :
    (keysOf (process_event s e).1.sessions).Nodup := by
  by_cases hf : isFreshOutboundOriginate s e = true
  · rw [step_fresh hf]
    have hu : e.uuid ∉ keysOf s.sessions := by
      simp only [isFreshOutboundOriginate, Bool.and_eq_true, beq_iff_eq, getHeader_eventName,
        getHeader_direction, getHeader_uuid, Option.isNone_iff_eq_none] at hf
      exact (lookupA_eq_none_iff e.uuid s.sessions).1 hf.2
    simp only [keysOf, List.map_append, List.map_cons, List.map_nil] at *
    simp [List.nodup_append, hnd, hu]
  · by_cases hh : isLiveHangup s e = true
    · rw [(step_live_hangup hh).1]
      have hsub : List.Sublist (keysOf (eraseKey e.uuid s.sessions)) (keysOf s.sessions) := by
        simp only [keysOf, eraseKey]
        exact List.Sublist.map Prod.fst (List.filter_sublist s.sessions)
      exact List.Nodup.sublist hsub hnd
    · have hf2 : isFreshOutboundOriginate s e = false := by simpa using hf
      have hh2 : isLiveHangup s e = false := by simpa using hh
      rw [(step_neutral hf2 hh2).1]
      exact hnd

lemma runEvents_append (s : SMState) (t1 t2 : List Event) :
    runEvents s (t1 ++ t2) = runEvents (runEvents s t1) t2 := by
  induction t1 generalizing s with
  | nil => rfl
  | cons e t ih => simp [runEvents, ih]

lemma nodup_keys_runEvents {s : SMState} (hnd : (keysOf s.sessions).Nodup)
    (tr : List Event) : (keysOf (runEvents s tr).sessions).Nodup := by
  induction tr generalizing s with
  | nil => exact hnd
  | cons e t ih => exact ih (nodup_keys_step e hnd)

lemma step_answer {s : SMState} {e : Event} {sess : Session}
    (hn : e.eventName = some "CHANNEL_ANSWER")
    (hlu : lookupA e.uuid s.sessions = some sess) :
    process_event s e =
      ({ s with
          total_answered_sessions := s.total_answered_sessions + 1
          sessions := setAnswered e.uuid s.sessions }, []) := by
  rw [process_event_answer s e hn]
  simp [handle_answer, hlu]

lemma tick_stopped {now : Int} {s : SMState}
    (h : s.max_sessions ≤ s.total_originated_sessions) :
    originate_sessions now s = (s, []) := by
  simp [originate_sessions, h]

lemma process_event_shape (s : SMState) (e : Event) :
    s.total_originated_sessions ≤ (process_event s e).1.total_originated_sessions ∧
    (process_event s e).1.max_sessions = s.max_sessions ∧
    ∀ c ∈ (process_event s e).2, ∃ d u, c = Cmd.schedHangup d u := by
  by_cases hf : isFreshOutboundOriginate s e = true
  · rw [step_fresh hf]
    refine ⟨by simp, rfl, ?_⟩
    intro c hc
    simp only [List.mem_singleton] at hc
    exact ⟨_, _, hc⟩
  · by_cases hh : isLiveHangup s e = true
    · obtain ⟨-, h2, h3, -, h5⟩ := step_live_hangup hh
      exact ⟨le_of_eq h2.symm, h3, by simp [h5]⟩
    · obtain ⟨-, -, h3, h4, -, h6⟩ := step_neutral (by simpa using hf) (by simpa using hh)
      exact ⟨le_of_eq h3.symm, h4, by simp [h6]⟩

lemma issueLoop_eq (limit : Nat) (r c : Nat) : issueLoop limit r c = min r (limit - c) := by
  induction r generalizing c with
  | zero => simp [issueLoop]
  | succ r ih =>
      by_cases h : limit ≤ c
      · simp only [issueLoop, if_pos h]
        omega
      · simp only [issueLoop, if_neg h, ih]
        omega

/-- C1: the claim requires that dispatching a SERVER_DISCONNECTED event sets
the terminate flag.  In the code it does not: `handle_disconnect` (line 177)
is declared without an event parameter, so the dispatch call
`self.ev_handlers[evname](e)` (line 130) raises TypeError, `process_event`
catches it (line 133), and the state — terminate included — is left exactly as
it was.  This theorem evaluates the code at the failing input: dispatching
SERVER_DISCONNECTED is a no-op and never sets terminate. -/
theorem server_disconnected_dispatch_noop (s : SMState) (u d c : Option String) :
    process_event s (⟨some "SERVER_DISCONNECTED", u, d, c⟩ : Event) = (s, []) ∧
    (process_event s (⟨some "SERVER_DISCONNECTED", u, d, c⟩ : Event)).1.terminate
      = s.terminate := by
  have h := process_event_disconnect s ⟨some "SERVER_DISCONNECTED", u, d, c⟩ rfl
  exact ⟨h, by rw [h]⟩

/-- C3: the claim requires the empty-queue sentinel to be translated into a
bounded non-negative default wait.  It is not: `next_event_time_delta` returns
the sentinel -1 for an empty queue, the run loop remaps only the value 0 to 1
(lines 186-187), and recvEventTimed is called with -1 * 1000 = -1000
milliseconds, a negative timeout.  This theorem evaluates the code at the
failing input (empty timer queue). -/
theorem empty_queue_negative_timeout (now : Int) :
    @next_event_time_delta ActionTag now [] = -1 ∧
    @run_recv_timeout_ms ActionTag now [] = -1000 ∧
    @run_recv_timeout_ms ActionTag now [] < 0 := by
  have h2 : @run_recv_timeout_ms ActionTag now [] = -1000 := rfl
  exact ⟨rfl, h2, by rw [h2]; decide⟩

/-- C4, counterexample: processing a fresh outbound CHANNEL_ORIGINATE event
creates the session (table size 1), yet the local timer queue stays empty — no
forced-hangup entry due `duration` seconds later is inserted anywhere locally;
instead a `sched_hangup` command is emitted to the transport. -/
theorem forced_hangup_not_in_local_queue :
    ((process_event (initState 1 1 10 60 "o") (evOriginate "u1")).1.sessions.length = 1) ∧
    ((process_event (initState 1 1 10 60 "o") (evOriginate "u1")).1.sched = []) ∧
    ((process_event (initState 1 1 10 60 "o") (evOriginate "u1")).2
        = [Cmd.schedHangup 60 (some "u1")]) := by
  decide

/-- C4, amended: event handlers never touch the local Timer Queue, and the
forced hangup for a freshly created session is requested immediately at
origination time as the transport command
`sched_hangup +duration uuid NORMAL_CLEARING` (line 150), which delegates the
timing to the external switch; the run loop drain therefore only ever executes
the recurring rate-control tick. -/
theorem forced_hangup_via_transport_command (s : SMState) (e : Event) :
    (process_event s e).1.sched = s.sched ∧
    (isFreshOutboundOriginate s e = true →
      (process_event s e).2 = [Cmd.schedHangup s.duration e.uuid]) := by
  constructor
  · by_cases hf : isFreshOutboundOriginate s e = true
    · rw [step_fresh hf]
    · by_cases hh : isLiveHangup s e = true
      · exact (step_live_hangup hh).2.2.2.1
      · exact (step_neutral (by simpa using hf) (by simpa using hh)).2.2.2.2.1
  · intro hf
    rw [step_fresh hf]

/-- Witness for C4 at a concrete fresh origination. -/
theorem forced_hangup_via_transport_command_witness :
    isFreshOutboundOriginate (initState 1 1 10 60 "o") (evOriginate "u1") = true ∧
    (process_event (initState 1 1 10 60 "o") (evOriginate "u1")).2
      = [Cmd.schedHangup 60 (some "u1")] :=
  ⟨by decide, (forced_hangup_via_transport_command _ _).2 (by decide)⟩

/-- C8: a CHANNEL_ORIGINATE event whose id is already present in the session
table leaves the whole state — table, Session objects, every counter —
unchanged and issues no command: the duplicate is logged and ignored, never
overwritten (lines 145-147). -/
theorem duplicate_originate_guard (s : SMState) (e : Event)
    (hname : e.eventName = some "CHANNEL_ORIGINATE")
    (hdup : (lookupA e.uuid s.sessions).isSome = true) :
    process_event s e = (s, []) := by
  rw [process_event_originate s e hname]
  simp only [handle_originate, getHeader_direction, getHeader_uuid]
  by_cases hd : e.direction = some "outbound"
  · rw [if_neg (by simp [hd]), if_pos hdup]
  · rw [if_pos (by simp [hd])]

/-- Witness for C8: a second confirmation for the id u1 changes nothing. -/
theorem duplicate_originate_guard_witness :
    (lookupA (some "u1")
        ((process_event (initState 1 1 5 60 "o") (evOriginate "u1")).1.sessions)).isSome
      = true ∧
    process_event ((process_event (initState 1 1 5 60 "o") (evOriginate "u1")).1)
        (evOriginate "u1")
      = ((process_event (initState 1 1 5 60 "o") (evOriginate "u1")).1, []) :=
  ⟨by decide, duplicate_originate_guard _ _ rfl (by decide)⟩

/-- C9: event dispatch contains errors: an event whose name has no handler is
logged and skipped with no state change, and a handler call that raises (here
the dispatch of SERVER_DISCONNECTED, which raises TypeError before the handler
body runs) is caught inside process_event, leaving the state untouched — no
partial mutation, and the run loop continues. -/
theorem dispatch_error_containment (s : SMState) (e : Event) :
    (dispatchCall s e = none → process_event s e = (s, [])) ∧
    (∀ msg, dispatchCall s e = some (PyResult.exn msg) → process_event s e = (s, [])) := by
  constructor
  · intro h; simp [process_event, h]
  · intro msg h; simp [process_event, h]

/-- Witness for C9: an unknown event name and the raising dispatch at concrete
inputs. -/
theorem dispatch_error_containment_witness :
    process_event (initState 1 1 1 60 "o") ⟨some "CUSTOM", none, none, none⟩
        = (initState 1 1 1 60 "o", []) ∧
    process_event (initState 1 1 1 60 "o") ⟨some "SERVER_DISCONNECTED", none, none, none⟩
        = (initState 1 1 1 60 "o", []) :=
  ⟨(dispatch_error_containment _ _).1 (by decide),
   (dispatch_error_containment _ _).2
     "TypeError: handle_disconnect() takes exactly 1 argument (2 given)" (by decide)⟩

/-- C10: a hangup event for an id not in the table is a complete no-op altering
no counter and no entry, while answer handling is not idempotent: every
CHANNEL_ANSWER for a live id increments total_answered_sessions by one and
sets the answered flag, so two answer events for the same session add two. -/
theorem hangup_noop_answer_not_idempotent (s : SMState) (e : Event) :
    (e.eventName = some "CHANNEL_HANGUP" → lookupA e.uuid s.sessions = none →
      process_event s e = (s, [])) ∧
    (∀ sess, e.eventName = some "CHANNEL_ANSWER" → lookupA e.uuid s.sessions = some sess →
      (process_event s e).1.total_answered_sessions = s.total_answered_sessions + 1 ∧
      lookupA e.uuid (process_event s e).1.sessions = some { sess with answered := true } ∧
      (process_event (process_event s e).1 e).1.total_answered_sessions
        = s.total_answered_sessions + 2) := by
  constructor
  · intro hn hlu
    rw [process_event_hangup s e hn]
    simp [handle_hangup, hlu]
  · intro sess hn hlu
    have h1 := step_answer hn hlu
    have hlu2 : lookupA e.uuid (process_event s e).1.sessions
        = some { sess with answered := true } := by
      rw [h1]
      simp [lookupA_setAnswered, hlu]
    refine ⟨by rw [h1], hlu2, ?_⟩
    have h2 := step_answer hn hlu2
    rw [h2, h1]

/-- Witness for C10 at concrete inputs: hangup for unknown id zz is a no-op,
and two answers for session u1 add two to total_answered_sessions. -/
theorem hangup_noop_answer_not_idempotent_witness :
    (process_event (process_event (initState 1 1 5 60 "o") (evOriginate "u1")).1
        (evHangup "zz")
      = ((process_event (initState 1 1 5 60 "o") (evOriginate "u1")).1, [])) ∧
    ((process_event
        (process_event (process_event (initState 1 1 5 60 "o") (evOriginate "u1")).1
          (evAnswer "u1")).1
        (evAnswer "u1")).1.total_answered_sessions
      = (process_event (initState 1 1 5 60 "o")
          (evOriginate "u1")).1.total_answered_sessions + 2) :=
  ⟨(hangup_noop_answer_not_idempotent _ _).1 rfl (by decide),
   ((hangup_noop_answer_not_idempotent _ _).2
     { uuid := some "u1", answered := false } rfl (by decide)).2.2⟩

/-- C6, amended: a tick issues exactly
`if max_sessions ≤ total_originated then 0 else min rate (limit - live)`
origination commands (Nat subtraction plays the role of max(0, limit - live)
in the claim); in particular the count never exceeds the configured rate and
never drives the live session count above the concurrency limit.  The claim as
stated omits the max_sessions early return, see the counterexample. -/
theorem tick_count_formula (now : Int) (s : SMState) :
    ((originate_sessions now s).2.length =
      if s.max_sessions ≤ s.total_originated_sessions then 0
      else min s.rate (s.limit - s.sessions.length)) ∧
    (originate_sessions now s).2.length ≤ s.rate ∧
    s.sessions.length + (originate_sessions now s).2.length
      ≤ max s.limit s.sessions.length := by
  by_cases h : s.max_sessions ≤ s.total_originated_sessions
  · simp [originate_sessions, h]
  · simp only [originate_sessions, if_neg h, List.length_replicate, issueLoop_eq]
    refine ⟨by simp [h], ?_, ?_⟩ <;> omega

/-- C6, counterexample: in the reachable state after originating and hanging
up one session with rate = limit = max_sessions = 1, a tick issues 0 commands
although min(rate, limit - live) = 1 — the claimed per-tick equality ignores
the early return at lines 115-117 taken once total_originated reached
max_sessions. -/
theorem tick_count_formula_counterexample :
    ¬ ((originate_sessions 5 (runEvents (initState 1 1 1 60 "o")
          [evOriginate "u1", evHangup "u1"])).2.length
        = min (runEvents (initState 1 1 1 60 "o")
                [evOriginate "u1", evHangup "u1"]).rate
              ((runEvents (initState 1 1 1 60 "o")
                [evOriginate "u1", evHangup "u1"]).limit
                - (runEvents (initState 1 1 1 60 "o")
                    [evOriginate "u1", evHangup "u1"]).sessions.length)) := by
  decide

/-- C2, counterexample: with rate = 2, limit = 2, max_sessions = 1, the first
tick issues two origination commands (its batch is bounded only by rate and
the concurrency limit, not by the remaining max_sessions budget), and after
the two matching CHANNEL_ORIGINATE confirmations total_originated_sessions = 2
exceeds max_sessions = 1, refuting the claim that total_originated_sessions
never exceeds max_sessions. -/
theorem total_ceiling_counterexample :
    ((runSteps (initState 2 2 1 60 "o") [RStep.tick 0]).2.length = 2) ∧
    ((initState 2 2 1 60 "o").max_sessions <
      (runSteps (initState 2 2 1 60 "o")
        [RStep.tick 0, RStep.ev (evOriginate "u1"),
         RStep.ev (evOriginate "u2")]).1.total_originated_sessions) := by
  decide

/-- C2, amended: once total_originated_sessions is at least max_sessions, no
later step — neither a tick nor a dispatched event — emits a
`bgapi originate` command: the tick returns at line 117 before issuing
anything (and stops re-arming), handlers only emit sched_hangup commands, and
total_originated_sessions never decreases. -/
theorem total_cap_stops_origination (s : SMState) (tr : List RStep)
    (h : s.max_sessions ≤ s.total_originated_sessions) :
    ∀ c ∈ (runSteps s tr).2, ∀ str, c ≠ Cmd.bgapiOriginate str := by
  induction tr generalizing s with
  | nil => intro c hc; simp [runSteps] at hc
  | cons st tr ih =>
      intro c hc str
      cases st with
      | tick now =>
          simp only [runSteps, rstep, tick_stopped h, List.nil_append] at hc
          exact ih s h c hc str
      | ev e =>
          simp only [runSteps, rstep] at hc
          rw [List.mem_append] at hc
          rcases hc with hc | hc
          · obtain ⟨-, -, h3⟩ := process_event_shape s e
            obtain ⟨d, u, rfl⟩ := h3 c hc
            simp
          · obtain ⟨h1, h2, -⟩ := process_event_shape s e
            exact ih _ (by rw [h2]; exact le_trans h h1) c hc str

/-- Witness for C2 amended, from a state where the cap is already reached. -/
theorem total_cap_stops_origination_witness :
    (initState 1 1 0 60 "o").max_sessions
      ≤ (initState 1 1 0 60 "o").total_originated_sessions ∧
    ∀ c ∈ (runSteps (initState 1 1 0 60 "o") [RStep.tick 0]).2,
      ∀ str, c ≠ Cmd.bgapiOriginate str :=
  ⟨by decide, total_cap_stops_origination _ _ (by decide)⟩

lemma filter_eq_nil_of_all {α : Type} {p : α → Bool} {l : List α}
    (h : ∀ x ∈ l, p x = false) : l.filter p = [] := by
  induction l with
  | nil => rfl
  | cons a l ih =>
      simp only [List.filter_cons, h a (List.mem_cons_self a l)]
      simpa using ih (fun x hx => h x (List.mem_cons_of_mem a hx))

lemma all_of_filter_eq_nil {α : Type} {p : α → Bool} {l : List α}
    (h : l.filter p = []) : ∀ x ∈ l, p x = false := by
  induction l with
  | nil => intro x hx; cases hx
  | cons a l ih =>
      intro x hx
      by_cases hpa : p a = true
      · simp only [List.filter_cons, hpa, if_pos] at h
        cases h
      · have hpa2 : p a = false := by simpa using hpa
        simp only [List.filter_cons, hpa2, Bool.false_eq_true, if_false] at h
        rcases List.mem_cons.1 hx with rfl | hx
        · exact hpa2
        · exact ih h x hx

lemma insortEntry_perm {α : Type} (e : TEntry α) (l : List (TEntry α)) :
    (insortEntry e l).Perm (e :: l) := by
  induction l with
  | nil => simp [insortEntry]
  | cons b l ih =>
      simp only [insortEntry]
      split
      · exact List.Perm.refl _
      · exact (List.Perm.cons b ih).trans (List.Perm.swap e b l)

lemma filter_insortEntry {α : Type} (p : TEntry α → Bool) (e : TEntry α)
    (l : List (TEntry α)) (hp : p e = false) :
    (insortEntry e l).filter p = l.filter p := by
  induction l with
  | nil => simp [insortEntry, hp]
  | cons b l ih =>
      simp only [insortEntry]
      split
      · simp [List.filter_cons, hp]
      · simp [List.filter_cons, ih]

lemma timeSorted_insortEntry {α : Type} {e : TEntry α} {l : List (TEntry α)}
    (hs : timeSorted l) : timeSorted (insortEntry e l) := by
  induction l with
  | nil => simp [insortEntry, timeSorted]
  | cons b l ih =>
      simp only [timeSorted, List.pairwise_cons] at hs
      obtain ⟨hb, hl⟩ := hs
      simp only [insortEntry]
      split
      · rename_i hcond
        have heb : e.time ≤ b.time := by rcases hcond with h | ⟨h, -⟩ <;> omega
        simp only [timeSorted, List.pairwise_cons]
        refine ⟨?_, ?_, ?_⟩
        · intro x hx
          rcases List.mem_cons.1 hx with rfl | hx
          · exact heb
          · exact le_trans heb (hb x hx)
        · exact hb
        · exact hl
      · rename_i hcond
        push_neg at hcond
        have hbe : b.time ≤ e.time := hcond.1
        simp only [timeSorted, List.pairwise_cons]
        constructor
        · intro x hx
          have hx2 := (insortEntry_perm e l).mem_iff.1 hx
          rcases List.mem_cons.1 hx2 with rfl | hx3
          · exact hbe
          · exact hb x hx3
        · exact ih hl

lemma timeSorted_foldl_insort {α : Type} (news : List (TEntry α)) :
    ∀ q : List (TEntry α), timeSorted q →
      timeSorted (news.foldl (fun acc n => insortEntry n acc) q) := by
  induction news with
  | nil => intro q hq; exact hq
  | cons n news ih => intro q hq; exact ih _ (timeSorted_insortEntry hq)

lemma filter_foldl_insort {α : Type} (p : TEntry α → Bool) (news : List (TEntry α)) :
    ∀ q, (∀ n ∈ news, p n = false) →
      (news.foldl (fun acc n => insortEntry n acc) q).filter p = q.filter p := by
  induction news with
  | nil => intro q h; rfl
  | cons n news ih =>
      intro q h
      rw [List.foldl_cons, ih _ (fun m hm => h m (List.mem_cons_of_mem n hm)),
        filter_insortEntry p n q (h n (List.mem_cons_self n news))]

/-- C5: one call to `fast_run` samples the clock once (line 56); it pops and
executes exactly the queue entries whose due time is at or before that sample,
in due-time (queue) order, removing each entry via cancel before invoking its
action, and every entry left in the queue afterwards — including entries
scheduled by actions during the drain — is due strictly after the sample, so
it is deferred to a later call.  The hypothesis `hexec` says actions only
schedule entries due after the sample; this holds for the program, whose only
action re-arms itself with `sched.enter(1, ...)`, giving a due time of a
not-earlier clock reading plus one second. -/
theorem fast_run_drain_bound {α σ : Type} (exec : α → σ → σ × List (TEntry α)) (now : Int)
    (hexec : ∀ a s n, n ∈ (exec a s).2 → now < n.time)
    (fuel : Nat) (q : List (TEntry α)) (s : σ)
    (hfuel : (q.filter (fun e => decide (e.time ≤ now))).length ≤ fuel)
    (hsort : timeSorted q) :
    (fast_run_aux exec now fuel q s).2.2 = q.filter (fun e => decide (e.time ≤ now)) ∧
    ∀ e ∈ (fast_run_aux exec now fuel q s).1, now < e.time := by
  induction fuel generalizing q s with
  | zero =>
      cases q with
      | nil => simp [fast_run_aux]
      | cons e q =>
          have hnil : (e :: q).filter (fun x => decide (x.time ≤ now)) = [] :=
            List.length_eq_zero.1 (Nat.le_zero.1 hfuel)
          simp only [fast_run_aux]
          refine ⟨hnil.symm, ?_⟩
          intro x hx
          have hf := all_of_filter_eq_nil hnil x hx
          simp only [decide_eq_false_iff_not] at hf
          omega
  | succ fuel ih =>
      cases q with
      | nil => simp [fast_run_aux]
      | cons e q =>
          simp only [timeSorted, List.pairwise_cons] at hsort
          obtain ⟨hb, hq⟩ := hsort
          by_cases h : now < e.time
          · simp only [fast_run_aux, if_pos h]
            constructor
            · symm
              apply filter_eq_nil_of_all
              intro x hx
              simp only [decide_eq_false_iff_not]
              rcases List.mem_cons.1 hx with rfl | hx
              · omega
              · have := hb x hx; omega
            · intro x hx
              rcases List.mem_cons.1 hx with rfl | hx
              · exact h
              · have := hb x hx; omega
          · have hle : e.time ≤ now := le_of_not_lt h
            simp only [fast_run_aux, if_neg h]
            have hnewf : ∀ n ∈ (exec e.action s).2,
                (fun x : TEntry α => decide (x.time ≤ now)) n = false := by
              intro n hn
              simp only [decide_eq_false_iff_not]
              have := hexec e.action s n hn
              omega
            have hfilt := filter_foldl_insort (fun x : TEntry α => decide (x.time ≤ now))
              (exec e.action s).2 q hnewf
            have hsort2 : timeSorted
                ((exec e.action s).2.foldl (fun acc n => insortEntry n acc) q) :=
              timeSorted_foldl_insort (exec e.action s).2 q hq
            have hfuel2 : (((exec e.action s).2.foldl (fun acc n => insortEntry n acc)
                q).filter (fun x => decide (x.time ≤ now))).length ≤ fuel := by
              rw [hfilt]
              have hcons : ((e :: q).filter (fun x => decide (x.time ≤ now))).length
                  = (q.filter (fun x => decide (x.time ≤ now))).length + 1 := by
                simp [List.filter_cons, hle]
              omega
            obtain ⟨ih1, ih2⟩ := ih _ (exec e.action s).1 hfuel2 hsort2
            refine ⟨?_, ih2⟩
            rw [ih1, hfilt, List.filter_cons]
            simp [hle]

/-- Witness for C5: a two-entry queue at sample time 3 executes exactly the
entry due at 0 and leaves the entry due at 5 pending. -/
theorem fast_run_drain_bound_witness :
    timeSorted ([⟨0, 1, ActionTag.originateSessions⟩, ⟨5, 1, ActionTag.originateSessions⟩] :
        List (TEntry ActionTag)) ∧
    ((fast_run_aux (fun (_ : ActionTag) (s : Nat) => (s + 1, [])) 3 2
        [⟨0, 1, ActionTag.originateSessions⟩, ⟨5, 1, ActionTag.originateSessions⟩] 0).2.2
      = ([⟨0, 1, ActionTag.originateSessions⟩, ⟨5, 1, ActionTag.originateSessions⟩] :
          List (TEntry ActionTag)).filter (fun e => decide (e.time ≤ 3)) ∧
      ∀ e ∈ (fast_run_aux (fun (_ : ActionTag) (s : Nat) => (s + 1, [])) 3 2
        [⟨0, 1, ActionTag.originateSessions⟩, ⟨5, 1, ActionTag.originateSessions⟩] 0).1,
        (3 : Int) < e.time) :=
  ⟨by simp [timeSorted, List.pairwise_cons],
   fast_run_drain_bound (fun _ s => (s + 1, [])) 3
     (by intro a s n hn; simp at hn) 2 _ 0 (by decide)
     (by simp [timeSorted, List.pairwise_cons])⟩

lemma counter_consistency_aux (tr : List Event) :
    ∀ s : SMState, (keysOf s.sessions).Nodup →
      (runEvents s tr).sessions.length + hangupRemovals s tr + s.total_originated_sessions
        = (runEvents s tr).total_originated_sessions + s.sessions.length := by
  induction tr with
  | nil =>
      intro s h
      simp only [runEvents, hangupRemovals]
      omega
  | cons e tr ih =>
      intro s hnd
      have IH := ih (process_event s e).1 (nodup_keys_step e hnd)
      simp only [runEvents, hangupRemovals]
      by_cases hf : isFreshOutboundOriginate s e = true
      · have hlh : isLiveHangup s e = false := by
          simp only [isFreshOutboundOriginate, Bool.and_eq_true, beq_iff_eq,
            getHeader_eventName, getHeader_direction, getHeader_uuid] at hf
          simp [isLiveHangup, hf.1.1]
        have hlen : (process_event s e).1.sessions.length = s.sessions.length + 1 := by
          rw [step_fresh hf]
          simp
        have htot : (process_event s e).1.total_originated_sessions
            = s.total_originated_sessions + 1 := by
          rw [step_fresh hf]
        rw [hlh]
        simp only [Bool.false_eq_true, if_false]
        omega
      · by_cases hh : isLiveHangup s e = true
        · have hmem : e.uuid ∈ keysOf s.sessions := by
            have hh2 := hh
            simp only [isLiveHangup, Bool.and_eq_true, beq_iff_eq,
              getHeader_eventName, getHeader_uuid] at hh2
            exact (lookupA_isSome_iff _ _).1 hh2.2
          obtain ⟨hsess, htot, -, -, -⟩ := step_live_hangup hh
          have hlen : (process_event s e).1.sessions.length + 1 = s.sessions.length := by
            rw [hsess]
            exact length_eraseKey hnd hmem
          rw [hh]
          simp only [if_true]
          omega
        · have hh2 : isLiveHangup s e = false := by simpa using hh
          obtain ⟨-, hlen, htot, -, -, -⟩ :=
            step_neutral (by simpa using hf) hh2
          rw [hh2]
          simp only [Bool.false_eq_true, if_false]
          omega

lemma table_keys_originated_aux (rate limit maxs dur : Nat) (ostr : String)
    (tr : List Event) :
    ∀ k ∈ keysOf (runEvents (initState rate limit maxs dur ostr) tr).sessions,
      ∃ tr₁ e tr₂, tr = tr₁ ++ e :: tr₂ ∧
        e.eventName = some "CHANNEL_ORIGINATE" ∧ e.direction = some "outbound" ∧
        e.uuid = k ∧ ∀ e₂ ∈ tr₂, ¬ hangupFor e₂ k := by
  induction tr using List.reverseRecOn with
  | nil => intro k hk; simp [runEvents, initState, keysOf] at hk
  | append_singleton tr e ih =>
      intro k hk
      rw [runEvents_append] at hk
      simp only [runEvents] at hk
      by_cases hf : isFreshOutboundOriginate (runEvents (initState rate limit maxs dur ostr) tr) e = true
      · have hforig := hf
        simp only [isFreshOutboundOriginate, Bool.and_eq_true, beq_iff_eq,
          getHeader_eventName, getHeader_direction, getHeader_uuid,
          Option.isNone_iff_eq_none] at hforig
        rw [step_fresh hf] at hk
        simp only [keysOf, List.map_append, List.map_cons, List.map_nil,
          List.mem_append, List.mem_singleton] at hk
        rcases hk with hk | rfl
        · obtain ⟨t1, e1, t2, rfl, hn, hd, hu, hnone⟩ := ih k hk
          refine ⟨t1, e1, t2 ++ [e], by simp, hn, hd, hu, ?_⟩
          intro e2 he2
          rcases List.mem_append.1 he2 with h2 | h2
          · exact hnone e2 h2
          · rw [List.mem_singleton] at h2
            subst h2
            rintro ⟨hcn, -⟩
            rw [getHeader_eventName, hforig.1.1] at hcn
            simp at hcn
        · exact ⟨tr, e, [], by simp, hforig.1.1, hforig.1.2, rfl, by intro e2 h; cases h⟩
      · by_cases hh : isLiveHangup (runEvents (initState rate limit maxs dur ostr) tr) e = true
        · rw [(step_live_hangup hh).1] at hk
          obtain ⟨hk1, hkne⟩ := mem_keysOf_eraseKey hk
          obtain ⟨t1, e1, t2, rfl, hn, hd, hu, hnone⟩ := ih k hk1
          refine ⟨t1, e1, t2 ++ [e], by simp, hn, hd, hu, ?_⟩
          intro e2 he2
          rcases List.mem_append.1 he2 with h2 | h2
          · exact hnone e2 h2
          · rw [List.mem_singleton] at h2
            subst h2
            rintro ⟨-, huu⟩
            rw [getHeader_uuid] at huu
            exact hkne huu.symm
        · obtain ⟨hkeys, -, -, -, -, -⟩ :=
            step_neutral (by simpa using hf) (by simpa using hh)
          rw [hkeys] at hk
          obtain ⟨t1, e1, t2, rfl, hn, hd, hu, hnone⟩ := ih k hk
          refine ⟨t1, e1, t2 ++ [e], by simp, hn, hd, hu, ?_⟩
          intro e2 he2
          rcases List.mem_append.1 he2 with h2 | h2
          · exact hnone e2 h2
          · rw [List.mem_singleton] at h2
            subst h2
            rintro ⟨hcn, hcu⟩
            apply hh
            simp only [isLiveHangup, Bool.and_eq_true, beq_iff_eq,
              getHeader_eventName, getHeader_uuid]
            rw [getHeader_eventName] at hcn
            rw [getHeader_uuid] at hcu
            refine ⟨hcn, ?_⟩
            rw [lookupA_isSome_iff, hcu]
            exact hk

/-- C7: after any processed event sequence from the initial state, the session
table size equals total_originated_sessions minus the number of sessions
removed by hangup events, and every id present in the table was added by an
outbound CHANNEL_ORIGINATE event after which no hangup event for that id has
been processed. -/
theorem counter_consistency (rate limit maxs dur : Nat) (ostr : String)
    (tr : List Event) :
    (runEvents (initState rate limit maxs dur ostr) tr).sessions.length
        + hangupRemovals (initState rate limit maxs dur ostr) tr
      = (runEvents (initState rate limit maxs dur ostr) tr).total_originated_sessions ∧
    ∀ k ∈ keysOf (runEvents (initState rate limit maxs dur ostr) tr).sessions,
      ∃ tr₁ e tr₂, tr = tr₁ ++ e :: tr₂ ∧
        e.eventName = some "CHANNEL_ORIGINATE" ∧ e.direction = some "outbound" ∧
        e.uuid = k ∧ ∀ e₂ ∈ tr₂, ¬ hangupFor e₂ k := by
  constructor
  · have h := counter_consistency_aux tr (initState rate limit maxs dur ostr)
      (by simp [initState, keysOf])
    simpa [initState] using h
  · exact table_keys_originated_aux rate limit maxs dur ostr tr

/-- Witness for C7 on the concrete scenario of the spec example: two sessions
originated, one answered, one hung up. -/
theorem counter_consistency_witness :
    (runEvents (initState 2 2 4 30 "o")
        [evOriginate "a", evOriginate "b", evAnswer "a", evHangup "b"]).sessions.length
        + hangupRemovals (initState 2 2 4 30 "o")
            [evOriginate "a", evOriginate "b", evAnswer "a", evHangup "b"]
      = (runEvents (initState 2 2 4 30 "o")
          [evOriginate "a", evOriginate "b", evAnswer "a", evHangup "b"]).total_originated_sessions :=
  (counter_consistency 2 2 4 30 "o"
    [evOriginate "a", evOriginate "b", evAnswer "a", evHangup "b"]).1

end LoadOriginate
